import Mathlib

/-!
Verification of the atomisation workflow of the `daily-kastenator` plugin
(`AtomisationService` in the services layer, together with its types).

Strings are modelled as `List Char`. JavaScript's `String.prototype` helpers
are embedded as executable functions on `List Char`:
  * `toLowerCase`/`toUpperCase` per character (the embedding uses the
    basic-latin case maps `Char.toLower`/`Char.toUpper`; the source only
    compares against ASCII markers);
  * `trim` and the `\s` class are modelled by `Char.isWhitespace`;
  * `split(/\s+/)` is modelled by `splitRuns`, which reproduces the JS
    behaviour including the empty leading/trailing fields and the `[""]`
    result on the empty string;
  * `includes` is substring containment (`containsL`);
  * the numeric comparison `overlap.length > conceptWords.length * 0.7` is
    an IEEE-754 binary64 comparison.  `0.7` as a double is exactly
    `6305039478318694 / 2^53`; `fl07 n` computes the exactly rounded
    (round-to-nearest, ties-to-even) double product `n * 0.7` as a scaled
    integer pair, so `gtFloat07` reproduces the comparison bit-for-bit for
    every count that a JS string can produce.
Ambient nondeterminism (`Date.now()`, `Math.random()`, the Obsidian vault)
is passed in explicitly: id generation takes the timestamp and random
suffix as arguments, and atom-file creation takes an oracle describing the
outcome of each `createAtomFile` call.
-/

namespace Kastenator

/-- Strings from the source are modelled as lists of characters. -/
abbrev Str := List Char

/-! ## JS string helpers -/

/-- `needle` occurs at the start of `hay` (JS `startsWith`). -/
def startsWithL : Str → Str → Bool
  | _, [] => true
  | [], _ :: _ => false
  | c :: cs, d :: ds => c == d && startsWithL cs ds

/-- `hay.includes(needle)` : contiguous substring containment. -/
def containsL : Str → Str → Bool
  | hay, needle =>
    startsWithL hay needle ||
      match hay with
      | [] => false
      | _ :: t => containsL t needle

/-- Lower-case a string character by character (JS `toLowerCase`). -/
def toLowerL (s : Str) : Str := s.map Char.toLower

/-- JS `s.split(/\s+/)`: every maximal whitespace run is one separator, so a
leading (resp. trailing) run contributes an empty first (resp. last) field,
and the empty string yields `[""]`. -/
def splitRuns : Str → List Str
  | [] => [[]]
  | c :: cs =>
    if c.isWhitespace then
      match cs with
      | [] => [[], []]
      | d :: _ => if d.isWhitespace then splitRuns cs else [] :: splitRuns cs
    else
      match splitRuns cs with
      | [] => [[c]]
      | w :: ws => (c :: w) :: ws

/-- Drop trailing whitespace. -/
def dropTrailingWs (s : Str) : Str := (s.reverse.dropWhile Char.isWhitespace).reverse

/-- JS `s.trim()`. -/
def jsTrim (s : Str) : Str := dropTrailingWs (s.dropWhile Char.isWhitespace)

/-! ## The binary64 comparison `k > n * 0.7`

`0.7` as an IEEE-754 double is exactly `6305039478318694 / 2 ^ 53` (the
nearest double below `7/10`).  `fl07 n` is the correctly rounded double
product `n * 0.7`, represented exactly as `m * 2 ^ e / 2 ^ 53`. -/

/-- The integer significand of the double nearest to `0.7`, scaled by `2^53`. -/
def mant07 : Nat := 6305039478318694

/-- Structural (fuel-driven) base-2 logarithm, exact whenever the fuel is at
least the bit length; 1200 units of fuel cover every product a JS string
count can produce (counts are below `2^53`, so products are below `2^107`,
far from both the fuel bound and double overflow). -/
def log2F : Nat → Nat → Nat
  | 0, _ => 0
  | fuel + 1, n => if 2 ≤ n then log2F fuel (n / 2) + 1 else 0

/-- The exactly rounded (to nearest, ties to even) double product `n * 0.7`,
as a pair `(m, e)` denoting `m * 2 ^ e / 2 ^ 53`. -/
def fl07 (n : Nat) : Nat × Nat :=
  let P := n * mant07
  if P < 2 ^ 53 then (P, 0)
  else
    let sh := log2F 1200 P - 52
    let q := P / 2 ^ sh
    let r := P % 2 ^ sh
    let h := 2 ^ (sh - 1)
    let q' := if h < r then q + 1 else if r < h then q else if q % 2 = 0 then q else q + 1
    (q', sh)

/-- The JS comparison `k > n * 0.7` (`k` an exact integer, product a double). -/
def gtFloat07 (k n : Nat) : Bool := (fl07 n).1 * 2 ^ (fl07 n).2 < k * 2 ^ 53

/-! ## Data model (`types.ts`) -/

/-- `QuarryNote` (the fields the atomisation service reads). -/
structure QuarryNote where
  title : Str
  content : Str
deriving DecidableEq, Repr

/-- `AtomCandidate` (`types.ts`). -/
structure AtomCandidate where
  id : Str
  concept : Str
  explanation : Str
  evidence : Str
  suggestedTitle : Str
  tags : List Str
  relatedAtoms : List Str
  critique : Str
  approved : Bool
deriving DecidableEq, Repr

/-- `AtomisationPhase` (`types.ts`). -/
inductive AtomisationPhase where
  | introduction
  | identification
  | explanation
  | critique
  | refinement
  | confirmation
  | creation
  | complete
deriving DecidableEq, Repr

/-- `AtomisationSession` (`types.ts`); `startedAt` is an abstract timestamp. -/
structure AtomisationSession where
  sourceNote : QuarryNote
  candidates : List AtomCandidate
  phase : AtomisationPhase
  startedAt : Nat
  completed : Bool
deriving DecidableEq, Repr

/-- `ValidationResult` (`types.ts`); `suggestions` is an optional field. -/
structure ValidationResult where
  valid : Bool
  feedback : Str
  suggestions : Option (List Str)
deriving DecidableEq, Repr

/-- A storage-layer failure thrown by the vault collaborator. -/
structure StorageErr where
  msg : Str
deriving DecidableEq, Repr

/-- Errors thrown by `AtomisationService` methods. -/
inductive ServiceErr where
  | noActiveSession
  | storage (e : StorageErr)
deriving DecidableEq, Repr

/-- The mutable state of an `AtomisationService` instance. -/
structure ServiceState where
  currentSession : Option AtomisationSession
deriving DecidableEq, Repr

/-! ## Session state machine (`AtomisationService`) -/

/-- `startSession(sourceNote)`. -/
def startSession (_s : ServiceState) (sourceNote : QuarryNote) (t : Nat) :
    AtomisationSession × ServiceState :=
  let sess : AtomisationSession :=
    { sourceNote := sourceNote, candidates := [], phase := .introduction,
      startedAt := t, completed := false }
  (sess, { currentSession := some sess })

/-- `getSession()`. -/
def getSession (s : ServiceState) : Option AtomisationSession := s.currentSession

/-- The fixed `phaseOrder` array in `advancePhase`. -/
def phaseOrder : List AtomisationPhase :=
  [.introduction, .identification, .explanation, .critique,
   .refinement, .confirmation, .creation, .complete]

/-- `phaseOrder[phaseOrder.indexOf(phase) + 1] ?? 'complete'`. -/
def nextPhase (p : AtomisationPhase) : AtomisationPhase :=
  (phaseOrder[phaseOrder.indexOf p + 1]?).getD .complete

/-- `advancePhase()`: throws with no active session. -/
def advancePhase (s : ServiceState) : Except ServiceErr (AtomisationPhase × ServiceState) :=
  match s.currentSession with
  | none => .error .noActiveSession
  | some sess =>
    let np := nextPhase sess.phase
    .ok (np, { currentSession := some { sess with phase := np } })

/-- `setPhase(phase)`: throws with no active session. -/
def setPhase (s : ServiceState) (p : AtomisationPhase) : Except ServiceErr ServiceState :=
  match s.currentSession with
  | none => .error .noActiveSession
  | some sess => .ok { currentSession := some { sess with phase := p } }

/-- `endSession()`. -/
def endSession (_s : ServiceState) : ServiceState := { currentSession := none }

/-! ## Candidate store -/

/-- `suggestTitle`: capitalise the first character of the trimmed concept. -/
def jsCapitalise (s : Str) : Str :=
  match s with
  | [] => []
  | c :: cs => c.toUpper :: cs

/-- `suggestTitle(concept)` (private helper of the service). -/
def suggestTitle (concept : Str) : Str :=
  let capitalised := jsCapitalise (jsTrim concept)
  if 80 < capitalised.length then capitalised.take 77 ++ "...".toList
  else capitalised

/-- `generateId()`: `atom-${Date.now()}-${Math.random().toString(36).slice(2, 9)}`,
with the ambient timestamp and random suffix passed in explicitly. -/
def generateId (now : Nat) (rand : Str) : Str :=
  "atom-".toList ++ (toString now).toList ++ "-".toList ++ rand

/-- `addCandidate(concept)`: throws with no active session. -/
def addCandidate (s : ServiceState) (concept : Str) (now : Nat) (rand : Str) :
    Except ServiceErr (AtomCandidate × ServiceState) :=
  match s.currentSession with
  | none => .error .noActiveSession
  | some sess =>
    let candidate : AtomCandidate :=
      { id := generateId now rand, concept := concept, explanation := [],
        evidence := [], suggestedTitle := suggestTitle concept, tags := [],
        relatedAtoms := [], critique := [], approved := false }
    .ok (candidate, { currentSession := some { sess with candidates := sess.candidates ++ [candidate] } })

/-- A `Partial<AtomCandidate>`: each field optionally supplied. -/
structure CandidatePatch where
  id : Option Str := none
  concept : Option Str := none
  explanation : Option Str := none
  evidence : Option Str := none
  suggestedTitle : Option Str := none
  tags : Option (List Str) := none
  relatedAtoms : Option (List Str) := none
  critique : Option Str := none
  approved : Option Bool := none
deriving DecidableEq, Repr

/-- `Object.assign(candidate, updates)`: supplied fields overwrite, the rest stay. -/
def applyPatch (c : AtomCandidate) (p : CandidatePatch) : AtomCandidate :=
  { id := p.id.getD c.id, concept := p.concept.getD c.concept,
    explanation := p.explanation.getD c.explanation,
    evidence := p.evidence.getD c.evidence,
    suggestedTitle := p.suggestedTitle.getD c.suggestedTitle,
    tags := p.tags.getD c.tags, relatedAtoms := p.relatedAtoms.getD c.relatedAtoms,
    critique := p.critique.getD c.critique, approved := p.approved.getD c.approved }

/-- `find` the first candidate with the id and assign the patch to it in place. -/
def updateList (p : CandidatePatch) (id : Str) :
    List AtomCandidate → Option AtomCandidate × List AtomCandidate
  | [] => (none, [])
  | c :: cs =>
    if c.id == id then (some (applyPatch c p), applyPatch c p :: cs)
    else
      let r := updateList p id cs
      (r.1, c :: r.2)

/-- `updateCandidate(id, updates)`: returns `null` (here `none`) when there is
no session or no candidate with the id. -/
def updateCandidate (s : ServiceState) (id : Str) (p : CandidatePatch) :
    Option AtomCandidate × ServiceState :=
  match s.currentSession with
  | none => (none, s)
  | some sess =>
    let r := updateList p id sess.candidates
    (r.1, { currentSession := some { sess with candidates := r.2 } })

/-- `findIndex` then `splice(index, 1)`: remove the first candidate with the id. -/
def removeList (id : Str) : List AtomCandidate → Bool × List AtomCandidate
  | [] => (false, [])
  | c :: cs =>
    if c.id == id then (true, cs)
    else
      let r := removeList id cs
      (r.1, c :: r.2)

/-- `removeCandidate(id)`: returns whether a removal occurred; never throws. -/
def removeCandidate (s : ServiceState) (id : Str) : Bool × ServiceState :=
  match s.currentSession with
  | none => (false, s)
  | some sess =>
    let r := removeList id sess.candidates
    (r.1, { currentSession := some { sess with candidates := r.2 } })

/-! ## Validator (`validateExplanation`) -/

/-- The `vagueMarkers` array, verbatim (note the capital `I` in the last entry). -/
def vagueMarkers : List Str :=
  ["something like".toList, "kind of".toList, "sort of".toList, "basically".toList,
   "generally".toList, "usually".toList, "I think maybe".toList]

/-- `vagueMarkers.some(m => explanation.toLowerCase().includes(m))`. -/
def hasVaguenessOf (explanation : Str) : Bool :=
  vagueMarkers.any fun m => containsL (toLowerL explanation) m

/-- `concept.toLowerCase().split(/\s+/)` for the concept of a candidate. -/
def conceptWordsOf (cand : AtomCandidate) : List Str := splitRuns (toLowerL cand.concept)

/-- `explanation.toLowerCase().split(/\s+/)`. -/
def explWordsOf (cand : AtomCandidate) : List Str := splitRuns (toLowerL cand.explanation)

/-- `conceptWords.filter(w => explanationWords.includes(w) && w.length > 3)` —
an array filter, so duplicated concept words are counted once per occurrence. -/
def overlapOf (cand : AtomCandidate) : List Str :=
  (conceptWordsOf cand).filter fun w => (explWordsOf cand).contains w && decide (3 < w.length)

/-! The atomicity gate compiles, for each conjunction `cj`, the regex
`\bcj\b.*\b(is|are|means|implies)\b` with the `i` flag and tests the
explanation.  The model below searches every start position: the conjunction
must occur with word boundaries (`\w = [A-Za-z0-9_]`) on both sides, and an
alternation verb must occur later with word boundaries, with no line
terminator (`\n`, `\r`, U+2028, U+2029 — the characters `.` cannot match)
strictly between the two. -/

/-- The `conjunctions` array. -/
def conjunctionList : List Str :=
  ["and".toList, "also".toList, "additionally".toList, "furthermore".toList,
   "moreover".toList]

/-- The verbs of the alternation `(is|are|means|implies)`. -/
def verbList : List Str := ["is".toList, "are".toList, "means".toList, "implies".toList]

/-- The regex word class `\w`. -/
def isWordCh (c : Char) : Bool := c.isAlphanum || c == '_'

/-- The ECMAScript line terminators, which `.` does not match. -/
def isLineTerm (c : Char) : Bool :=
  c == '\n' || c == '\r' || c == '\u2028' || c == '\u2029'

/-- `w` occurs at the head of `t` with `\b` on both sides; `prev` is the
character just before this position (`none` at the start of the string). -/
def wordHere (prev : Option Char) (t w : Str) : Bool :=
  startsWithL t w &&
    (match prev with | none => true | some p => !isWordCh p) &&
    (match (t.drop w.length).head? with | none => true | some d => !isWordCh d)

/-- Search for `\b(is|are|means|implies)\b` reachable from here by `.*`. -/
def verbSearch (prev : Option Char) : Str → Bool
  | [] => verbList.any fun v => wordHere prev [] v
  | c :: cs =>
    (verbList.any fun v => wordHere prev (c :: cs) v) ||
      (!isLineTerm c && verbSearch (some c) cs)

/-- Search for `\bcj\b` followed (via `.*`) by a bounded alternation verb. -/
def conjSearch (cj : Str) (prev : Option Char) : Str → Bool
  | [] => false
  | c :: cs =>
    (wordHere prev (c :: cs) cj && verbSearch cj.getLast? ((c :: cs).drop cj.length)) ||
      conjSearch cj (some c) cs

/-- `conjunctions.some(conj => pattern.test(explanation))`; the `i` flag is
modelled by matching against the lower-cased explanation (the pattern itself
is lower-case, and ASCII lowering preserves `\w` and line terminators). -/
def hasMultipleConceptsOf (explanation : Str) : Bool :=
  conjunctionList.any fun cj => conjSearch cj none (toLowerL explanation)

/-- The "too brief" result. -/
def tooBriefResult : ValidationResult :=
  { valid := false,
    feedback := "Too brief. An atomic concept requires a substantive explanation.".toList,
    suggestions := some
      ["What is the core claim or idea?".toList,
       "Why does this matter?".toList,
       "How would you explain this to someone unfamiliar with the source?".toList] }

/-- The hedging-language result. -/
def hedgingResult : ValidationResult :=
  { valid := false,
    feedback := "The explanation contains hedging language. Be precise.".toList,
    suggestions := some
      ["Remove qualifiers and state the concept directly".toList,
       "If uncertain, identify what specifically is unclear".toList] }

/-- The "repeats the concept" result. -/
def repeatsResult : ValidationResult :=
  { valid := false,
    feedback := "The explanation largely repeats the concept rather than explaining it.".toList,
    suggestions := some
      ["Explain what the concept means, not just what it is".toList,
       "Add context or implications".toList] }

/-- The "multiple concepts" result. -/
def multipleResult : ValidationResult :=
  { valid := false,
    feedback := "This may contain multiple concepts. Each atom should express one idea.".toList,
    suggestions := some
      ["Consider splitting into separate atoms".toList,
       "Identify the primary concept and extract secondary ideas".toList] }

/-- The passing result. -/
def validResult : ValidationResult :=
  { valid := true,
    feedback := "Explanation is acceptable. Consider: does this stand alone without the source?".toList,
    suggestions := none }

/-- `validateExplanation(candidate)`. -/
def validateExplanation (cand : AtomCandidate) : ValidationResult :=
  if cand.explanation.length < 20 then tooBriefResult
  else if hasVaguenessOf cand.explanation then hedgingResult
  else if gtFloat07 (overlapOf cand).length (conceptWordsOf cand).length then repeatsResult
  else if hasMultipleConceptsOf cand.explanation then multipleResult
  else validResult

/-! ## Critique generator -/

/-- Issue string: title shorter than 10. -/
def titleShortIssue : Str := "Title is too short to be descriptive.".toList

/-- Issue string: title longer than 80. -/
def titleLongIssue : Str := "Title is too long. Aim for concise but complete.".toList

/-- Issue string: empty evidence. -/
def noEvidenceIssue : Str :=
  "No supporting evidence provided. Atoms should trace to sources.".toList

/-- Issue string: evidence shorter than 30. -/
def sparseEvidenceIssue : Str :=
  "Evidence is sparse. Include enough context to verify the claim.".toList

/-- Issue string: no related atoms. -/
def noRelatedIssue : Str :=
  "No related atoms linked. Consider connections to existing knowledge.".toList

/-- The fixed no-issue message. -/
def noIssuesMsg : Str := "No significant issues identified. Ready for creation.".toList

/-- The `issues` array accumulated by `generateRuleBasedCritique`, in push order. -/
def issuesOf (cand : AtomCandidate) : List Str :=
  (if cand.suggestedTitle.length < 10 then [titleShortIssue] else []) ++
  (if 80 < cand.suggestedTitle.length then [titleLongIssue] else []) ++
  (if cand.evidence.isEmpty then [noEvidenceIssue]
   else if cand.evidence.length < 30 then [sparseEvidenceIssue] else []) ++
  (if (validateExplanation cand).valid then [] else [(validateExplanation cand).feedback]) ++
  (if cand.relatedAtoms.isEmpty then [noRelatedIssue] else [])

/-- `generateRuleBasedCritique(candidate)`. -/
def generateRuleBasedCritique (cand : AtomCandidate) : Str :=
  if issuesOf cand = [] then noIssuesMsg
  else List.intercalate "\n\n".toList (issuesOf cand)

/-- `generateCritique(candidate)`: the synchronous rule-based alias. -/
def generateCritique (cand : AtomCandidate) : Str := generateRuleBasedCritique cand

/-! ## Atom materialisation (`createAtoms`)

`createAtomFile` performs vault I/O (folder creation, collision handling,
`vault.create`); its per-candidate outcome is abstracted as an oracle
returning either a thrown storage error, or the created file handle
(`some f`; the declared `TFile | null` type admits `null`, modelled as
`ok none`, in which case the loop pushes nothing).  Files are modelled by
their paths, and the vault by the list of files created so far. -/

/-- A created file handle. -/
abbrev TFile := Str

/-- The sequential loop body of `createAtoms`: process the candidates in
order, collecting the files actually created; stop at the first thrown
storage error (files created before it stay created). -/
def createAtomsRun (ora : AtomCandidate → Except StorageErr (Option TFile)) :
    List AtomCandidate → List TFile × Option StorageErr
  | [] => ([], none)
  | c :: cs =>
    match ora c with
    | .error e => ([], some e)
    | .ok none => createAtomsRun ora cs
    | .ok (some f) =>
      let r := createAtomsRun ora cs
      (f :: r.1, r.2)

/-- `createAtoms()`: filter the approved candidates, create their files
sequentially, then mark the session completed.  Returns the vault contents,
the resulting service state, and either the created-file list or the
propagated error (in which case the state is untouched). -/
def createAtoms (ora : AtomCandidate → Except StorageErr (Option TFile))
    (vault : List TFile) (s : ServiceState) :
    List TFile × ServiceState × Except ServiceErr (List TFile) :=
  match s.currentSession with
  | none => (vault, s, .error .noActiveSession)
  | some sess =>
    let approvedCandidates := sess.candidates.filter fun c => c.approved
    let r := createAtomsRun ora approvedCandidates
    match r.2 with
    | none => (vault ++ r.1, { currentSession := some { sess with completed := true } }, .ok r.1)
    | some e => (vault ++ r.1, s, .error (.storage e))

/-! ## Sequences of candidate-store operations

Used to state reachability invariants: an operation together with the
ambient inputs its call consumes (the timestamp / random suffix feeding
`generateId`). -/

/-- One candidate-store call with its arguments. -/
inductive StoreOp where
  | add (concept : Str) (now : Nat) (rand : Str)
  | upd (id : Str) (p : CandidatePatch)
  | rem (id : Str)
deriving Repr

/-- Execute one store call against the service state (a thrown
`NoActiveSession` leaves the state unchanged). -/
def stepOp (s : ServiceState) : StoreOp → ServiceState
  | .add concept now rand =>
    match addCandidate s concept now rand with
    | .ok r => r.2
    | .error _ => s
  | .upd id p => (updateCandidate s id p).2
  | .rem id => (removeCandidate s id).2

/-- Execute a sequence of store calls. -/
def runOps (s : ServiceState) (ops : List StoreOp) : ServiceState := ops.foldl stepOp s

/-- Every candidate of the current session (if any) has a title of at most 80
characters. -/
def stateTitlesOK (s : ServiceState) : Bool :=
  match s.currentSession with
  | none => true
  | some sess => sess.candidates.all fun c => c.suggestedTitle.length ≤ 80

/-- A patch whose supplied `suggestedTitle`, if any, respects the 80-character
bound. -/
def patchTitleOK (p : CandidatePatch) : Bool :=
  match p.suggestedTitle with
  | none => true
  | some t => t.length ≤ 80

/-- An operation that cannot introduce an over-long title by itself. -/
def opTitleOK : StoreOp → Bool
  | .upd _ p => patchTitleOK p
  | _ => true

/-! ## Definitions modelled from the spec's words (for refinement checks) -/

/-- Modelled from the spec: the repetition gate as the spec words it — "the
number of elements of the set of concept words longer than 3 characters that
also appear among the explanation's words exceeds 70% of the concept's word
count", with a set (duplicates counted once) and an exact 70% threshold. -/
def specRepeatCond (cand : AtomCandidate) : Bool :=
  7 * (conceptWordsOf cand).length <
    10 * ((conceptWordsOf cand).dedup.filter
      (fun w => decide (3 < w.length) && (explWordsOf cand).contains w)).length

/-- Modelled from the spec (claim C5's words): `suggestedTitle` derived from
the concept itself — first character capitalised, truncated to at most 80
characters with a trailing ellipsis marker when longer — with no trimming. -/
def specClaimTitle (concept : Str) : Str :=
  let capitalised := jsCapitalise concept
  if 80 < capitalised.length then capitalised.take 77 ++ "...".toList
  else capitalised

/-! ## Concrete fixtures -/

/-- A concrete source note. -/
def sampleNote : QuarryNote := { title := "Quarry".toList, content := "Body".toList }

/-- A freshly started session on `sampleNote`. -/
def sampleSession : AtomisationSession :=
  { sourceNote := sampleNote, candidates := [], phase := .introduction,
    startedAt := 0, completed := false }

/-- A service state holding `sampleSession`. -/
def sampleState : ServiceState := { currentSession := some sampleSession }

/-- A service state with no live session. -/
def emptyState : ServiceState := { currentSession := none }

/-! ## Phase iteration helpers -/

/-- One `advancePhase()` call, keeping only the state (a throw changes nothing). -/
def advanceStep (s : ServiceState) : ServiceState :=
  match advancePhase s with
  | .ok r => r.2
  | .error _ => s

/-- `k` successive `advancePhase()` calls. -/
def advanceN (s : ServiceState) : Nat → ServiceState
  | 0 => s
  | k + 1 => advanceN (advanceStep s) k

/-- `k`-fold `nextPhase`. -/
def nextPhaseN (p : AtomisationPhase) : Nat → AtomisationPhase
  | 0 => p
  | k + 1 => nextPhaseN (nextPhase p) k

/-- The phase of the current session, if any. -/
def phaseOf (s : ServiceState) : Option AtomisationPhase := s.currentSession.map (·.phase)

theorem advanceN_some (sess : AtomisationSession) (k : Nat) :
    advanceN { currentSession := some sess } k =
      { currentSession := some { sess with phase := nextPhaseN sess.phase k } } := by
  induction k generalizing sess with
  | zero => rfl
  | succ k ih =>
    show advanceN { currentSession := some { sess with phase := nextPhase sess.phase } } k = _
    rw [ih]
    rfl

theorem nextPhaseN_split (p : AtomisationPhase) (a b : Nat) :
    nextPhaseN p (a + b) = nextPhaseN (nextPhaseN p a) b := by
  induction a generalizing p with
  | zero => rw [Nat.zero_add]; rfl
  | succ a ih =>
    rw [Nat.succ_add]
    exact ih (nextPhase p)

theorem nextPhaseN_complete (m : Nat) : nextPhaseN .complete m = .complete := by
  induction m with
  | zero => rfl
  | succ m ih => exact ih

/-- C1: from `introduction`, the phase after `k ≤ 7` calls of `advancePhase()`
is the `k`-th entry of the fixed order (so each call moves exactly one step
forward and the 7th reaches `complete`), and every call beyond the 7th leaves
the phase at `complete`. -/
theorem c1_advancePhase_order (s : ServiceState) (sess : AtomisationSession)
    (hs : s.currentSession = some sess) (hp : sess.phase = .introduction) :
    (∀ k, k < 8 → phaseOf (advanceN s k) = phaseOrder[k]?) ∧
    (∀ m, phaseOf (advanceN s (7 + m)) = some .complete) := by
  obtain ⟨cs⟩ := s
  simp only at hs
  subst hs
  constructor
  · intro k hk
    rw [advanceN_some, hp]
    show some (nextPhaseN .introduction k) = phaseOrder[k]?
    revert hk
    revert k
    decide
  · intro m
    rw [advanceN_some, hp]
    show some (nextPhaseN .introduction (7 + m)) = some .complete
    rw [nextPhaseN_split, show nextPhaseN AtomisationPhase.introduction 7 = .complete from by decide,
      nextPhaseN_complete]

/-- C1 witness: the theorem applied to a freshly started session. -/
theorem c1_advancePhase_order_witness :
    (∀ k, k < 8 → phaseOf (advanceN sampleState k) = phaseOrder[k]?) ∧
    (∀ m, phaseOf (advanceN sampleState (7 + m)) = some .complete) :=
  c1_advancePhase_order sampleState sampleSession rfl rfl

/-- C7: with no live session, `advancePhase`, `setPhase` and `addCandidate`
throw `NoActiveSession`; `updateCandidate` returns the `null` signal,
`removeCandidate` returns `false` and `getSession` returns the no-session
signal, all without throwing and without changing the state; and
`endSession` succeeds as a no-op. -/
theorem c7_no_session (s : ServiceState) (h : s.currentSession = none) :
    advancePhase s = .error .noActiveSession ∧
    (∀ p, setPhase s p = .error .noActiveSession) ∧
    (∀ concept now rand, addCandidate s concept now rand = .error .noActiveSession) ∧
    (∀ id p, updateCandidate s id p = (none, s)) ∧
    (∀ id, removeCandidate s id = (false, s)) ∧
    getSession s = none ∧
    endSession s = s := by
  obtain ⟨cs⟩ := s
  simp only at h
  subst h
  refine ⟨rfl, fun _ => rfl, fun _ _ _ => rfl, fun _ _ => rfl, fun _ => rfl, rfl, rfl⟩

/-- C7 witness: the theorem applied to the empty service state. -/
theorem c7_no_session_witness :
    advancePhase emptyState = .error .noActiveSession ∧
    (∀ p, setPhase emptyState p = .error .noActiveSession) ∧
    (∀ concept now rand, addCandidate emptyState concept now rand = .error .noActiveSession) ∧
    (∀ id p, updateCandidate emptyState id p = (none, emptyState)) ∧
    (∀ id, removeCandidate emptyState id = (false, emptyState)) ∧
    getSession emptyState = none ∧
    endSession emptyState = emptyState :=
  c7_no_session emptyState rfl

/-! ## C2: the dead `'I think maybe'` vagueness marker -/

/-- A candidate whose explanation contains the marker `"I think maybe"`
(so, case-insensitively, it contains a marker of the fixed list), is 35
characters long, and trips no other gate. -/
def hedgeCand : AtomCandidate :=
  { id := [], concept := "Quality".toList,
    explanation := "I think maybe tests help a lot here".toList,
    evidence := [], suggestedTitle := [], tags := [], relatedAtoms := [],
    critique := [], approved := false }

/-- C2: the claim fails on the code.  `hedgeCand.explanation` contains,
case-insensitively, the fixed marker `"I think maybe"` and is at least 20
characters long, yet `validateExplanation` returns the *valid* result rather
than the hedging-language result: the marker is compared against the
lower-cased explanation while itself containing a capital `I`, so it can
never match. -/
theorem c2_hedging_marker_dead :
    containsL (toLowerL hedgeCand.explanation) (toLowerL "I think maybe".toList) = true ∧
    20 ≤ hedgeCand.explanation.length ∧
    validateExplanation hedgeCand = validResult := by decide

/-! ## C3: the repetition gate -/

/-- A candidate with duplicated concept words: the code's array `filter`
counts every duplicate occurrence, the spec's set counts the word once. -/
def dupConceptCand : AtomCandidate :=
  { id := [], concept := "data data data data".toList,
    explanation := "data is quite wonderful today indeed".toList,
    evidence := [], suggestedTitle := [], tags := [], relatedAtoms := [],
    critique := [], approved := false }

set_option maxRecDepth 4000 in
/-- C3 counterexample: `dupConceptCand`'s explanation is 36 characters long
and marker-free, and the *set* of its concept words longer than 3 characters
that appear among the explanation's words has 1 element — not more than 70%
of the 4 concept words — yet `validateExplanation` returns the
"repeats the concept" result, because the code filters the concept-word
*array* and counts the duplicated word four times. -/
theorem c3_repetition_counterexample :
    validateExplanation dupConceptCand = repeatsResult ∧
    specRepeatCond dupConceptCand = false := by decide

/-- C3 (amended): for a candidate whose explanation passes the length gate
and contains no vagueness marker, `validateExplanation` returns the
"repeats the concept" result exactly when the number of concept-word
*occurrences* (duplicates counted once per occurrence) that are longer than
3 characters and appear among the explanation's words exceeds the IEEE-754
double product `conceptWords.length * 0.7` (at a 90-word concept this
product is `62.99999999999999`, slightly below exact 70%). -/
theorem c3_repetition_gate (cand : AtomCandidate)
    (h1 : ¬ cand.explanation.length < 20)
    (h2 : hasVaguenessOf cand.explanation = false) :
    validateExplanation cand = repeatsResult ↔
      gtFloat07 (overlapOf cand).length (conceptWordsOf cand).length = true := by
  unfold validateExplanation
  rw [if_neg h1, if_neg (by simp [h2])]
  cases hgt : gtFloat07 (overlapOf cand).length (conceptWordsOf cand).length with
  | true => simp [hgt]
  | false =>
    rw [if_neg (by simp [hgt])]
    refine iff_of_false ?_ (by simp)
    cases hmc : hasMultipleConceptsOf cand.explanation with
    | true => rw [if_pos (by simp [hmc])]; decide
    | false => rw [if_neg (by simp [hmc])]; decide

/-- C3 witness: the amended gate evaluated on `dupConceptCand`, whose
duplicated concept word makes the occurrence count 4 of 4 words. -/
theorem c3_repetition_gate_witness :
    validateExplanation dupConceptCand = repeatsResult ↔
      gtFloat07 (overlapOf dupConceptCand).length (conceptWordsOf dupConceptCand).length = true :=
  c3_repetition_gate dupConceptCand (by decide) (by decide)

/-! ## C9: rule-based critique -/

/-- C9: for a candidate with a 5-character title, empty evidence and no
related atoms, the critique (via the synchronous alias as well) is the
accumulated issue list joined with blank lines, and that list contains the
title-too-short, no-supporting-evidence and no-related-atoms fragments;
and any candidate whose issue list is empty gets the fixed
no-significant-issues message. -/
theorem c9_rule_based_critique (cand : AtomCandidate)
    (ht : cand.suggestedTitle.length = 5)
    (he : cand.evidence = []) (hr : cand.relatedAtoms = []) :
    generateCritique cand = generateRuleBasedCritique cand ∧
    titleShortIssue ∈ issuesOf cand ∧
    noEvidenceIssue ∈ issuesOf cand ∧
    noRelatedIssue ∈ issuesOf cand ∧
    generateRuleBasedCritique cand = List.intercalate "\n\n".toList (issuesOf cand) ∧
    (∀ c, issuesOf c = [] → generateRuleBasedCritique c = noIssuesMsg) := by
  have hiss : issuesOf cand =
      titleShortIssue ::
        (noEvidenceIssue ::
          ((if (validateExplanation cand).valid then []
            else [(validateExplanation cand).feedback]) ++ [noRelatedIssue])) := by
    unfold issuesOf
    rw [ht, he, hr]
    simp
  refine ⟨rfl, ?_, ?_, ?_, ?_, ?_⟩
  · rw [hiss]; exact List.mem_cons_self _ _
  · rw [hiss]; simp
  · rw [hiss]; simp
  · unfold generateRuleBasedCritique
    rw [if_neg (by rw [hiss]; exact List.cons_ne_nil _ _)]
  · intro c hc
    unfold generateRuleBasedCritique
    rw [if_pos hc]

/-- A candidate with a 5-character title, empty evidence and no related atoms. -/
def issuesCand : AtomCandidate :=
  { id := [], concept := "Testing".toList,
    explanation := "A thorough explanation of testing practices".toList,
    evidence := [], suggestedTitle := "Tests".toList, tags := [], relatedAtoms := [],
    critique := [], approved := false }

/-- A candidate with no critique issues at all. -/
def cleanCand : AtomCandidate :=
  { id := [], concept := "Unit tests".toList,
    explanation := "Automated verification of individual code units in isolation ensures each component behaves correctly before integration".toList,
    evidence := "Research indicates that testing reduces defects by 40%".toList,
    suggestedTitle := "Testing practices".toList, tags := [],
    relatedAtoms := ["Related note".toList], critique := [], approved := false }

set_option maxRecDepth 8000 in
/-- C9 witness: the theorem applied to `issuesCand`, and its no-issue branch
applied to `cleanCand`. -/
theorem c9_rule_based_critique_witness :
    (generateCritique issuesCand = generateRuleBasedCritique issuesCand ∧
     titleShortIssue ∈ issuesOf issuesCand ∧
     noEvidenceIssue ∈ issuesOf issuesCand ∧
     noRelatedIssue ∈ issuesOf issuesCand ∧
     generateRuleBasedCritique issuesCand = List.intercalate "\n\n".toList (issuesOf issuesCand)) ∧
    generateRuleBasedCritique cleanCand = noIssuesMsg := by
  have h := c9_rule_based_critique issuesCand (by decide) (by decide) (by decide)
  exact ⟨⟨h.1, h.2.1, h.2.2.1, h.2.2.2.1, h.2.2.2.2.1⟩, h.2.2.2.2.2 cleanCand (by decide)⟩

/-! ## C8: partial-field merge -/

theorem updateList_append (p : CandidatePatch) (id : Str)
    (pre : List AtomCandidate) (c : AtomCandidate) (post : List AtomCandidate)
    (hpre : ∀ d ∈ pre, d.id ≠ id) (hc : c.id = id) :
    updateList p id (pre ++ c :: post) =
      (some (applyPatch c p), pre ++ applyPatch c p :: post) := by
  induction pre with
  | nil => simp [updateList, hc]
  | cons d ds ih =>
    have hd : (d.id == id) = false := by
      simp only [beq_eq_false_iff_ne, ne_eq]
      exact hpre d (List.mem_cons_self d ds)
    simp only [List.cons_append, updateList, hd, Bool.false_eq_true, if_false,
      List.append_eq, ih fun x hx => hpre x (List.mem_cons_of_mem d hx)]

/-- C8: if the store's candidate list is `pre ++ c :: post` with `c` the
first candidate carrying the id, `updateCandidate` replaces exactly `c` by
the patched candidate (every other candidate untouched), returns the patched
candidate, and the merge is field-local: each of the nine fields of the
patched candidate is the patch's value when supplied (so an explicit empty
string overwrites) and the old value otherwise. -/
theorem c8_updateCandidate (s : ServiceState) (sess : AtomisationSession)
    (pre : List AtomCandidate) (c : AtomCandidate) (post : List AtomCandidate)
    (id : Str) (p : CandidatePatch)
    (hs : s.currentSession = some sess)
    (hsplit : sess.candidates = pre ++ c :: post)
    (hc : c.id = id) (hpre : ∀ d ∈ pre, d.id ≠ id) :
    updateCandidate s id p =
      (some (applyPatch c p),
       { currentSession := some { sess with candidates := pre ++ applyPatch c p :: post } }) ∧
    (applyPatch c p).id = p.id.getD c.id ∧
    (applyPatch c p).concept = p.concept.getD c.concept ∧
    (applyPatch c p).explanation = p.explanation.getD c.explanation ∧
    (applyPatch c p).evidence = p.evidence.getD c.evidence ∧
    (applyPatch c p).suggestedTitle = p.suggestedTitle.getD c.suggestedTitle ∧
    (applyPatch c p).tags = p.tags.getD c.tags ∧
    (applyPatch c p).relatedAtoms = p.relatedAtoms.getD c.relatedAtoms ∧
    (applyPatch c p).critique = p.critique.getD c.critique ∧
    (applyPatch c p).approved = p.approved.getD c.approved := by
  refine ⟨?_, rfl, rfl, rfl, rfl, rfl, rfl, rfl, rfl, rfl⟩
  simp only [updateCandidate, hs, hsplit, updateList_append p id pre c post hpre hc]

/-- Two stored candidates. -/
def candA : AtomCandidate :=
  { id := "a1".toList, concept := "alpha".toList, explanation := "ae".toList,
    evidence := "av".toList, suggestedTitle := "Alpha".toList, tags := [],
    relatedAtoms := [], critique := [], approved := false }

/-- The second stored candidate, target of the patch. -/
def candB : AtomCandidate :=
  { id := "b2".toList, concept := "beta".toList, explanation := "be".toList,
    evidence := "bv".toList, suggestedTitle := "Beta".toList, tags := [],
    relatedAtoms := [], critique := [], approved := false }

/-- A patch supplying `explanation := ""` (an explicit empty-string update)
and a new evidence value. -/
def emptyStrPatch : CandidatePatch :=
  { explanation := some [], evidence := some "new evidence".toList }

/-- A state whose session stores `candA` then `candB`. -/
def twoCandState : ServiceState :=
  { currentSession := some { sampleSession with candidates := [candA, candB] } }

/-- C8 witness: patching `candB` with an explicit empty-string explanation
updates only the supplied fields and only that candidate. -/
theorem c8_updateCandidate_witness :
    updateCandidate twoCandState "b2".toList emptyStrPatch =
      (some (applyPatch candB emptyStrPatch),
       { currentSession := some { sampleSession with
          candidates := [candA] ++ applyPatch candB emptyStrPatch :: [] } }) ∧
    (applyPatch candB emptyStrPatch).id = emptyStrPatch.id.getD candB.id ∧
    (applyPatch candB emptyStrPatch).concept = emptyStrPatch.concept.getD candB.concept ∧
    (applyPatch candB emptyStrPatch).explanation = emptyStrPatch.explanation.getD candB.explanation ∧
    (applyPatch candB emptyStrPatch).evidence = emptyStrPatch.evidence.getD candB.evidence ∧
    (applyPatch candB emptyStrPatch).suggestedTitle = emptyStrPatch.suggestedTitle.getD candB.suggestedTitle ∧
    (applyPatch candB emptyStrPatch).tags = emptyStrPatch.tags.getD candB.tags ∧
    (applyPatch candB emptyStrPatch).relatedAtoms = emptyStrPatch.relatedAtoms.getD candB.relatedAtoms ∧
    (applyPatch candB emptyStrPatch).critique = emptyStrPatch.critique.getD candB.critique ∧
    (applyPatch candB emptyStrPatch).approved = emptyStrPatch.approved.getD candB.approved :=
  c8_updateCandidate twoCandState { sampleSession with candidates := [candA, candB] }
    [candA] candB [] "b2".toList emptyStrPatch rfl rfl rfl (by decide)

/-! ## C4: the 80-character title invariant -/

theorem suggestTitle_length_le (concept : Str) : (suggestTitle concept).length ≤ 80 := by
  show (if 80 < (jsCapitalise (jsTrim concept)).length
        then (jsCapitalise (jsTrim concept)).take 77 ++ "...".toList
        else jsCapitalise (jsTrim concept)).length ≤ 80
  split
  · rw [List.length_append, List.length_take]
    have h3 : ("...".toList).length = 3 := rfl
    omega
  · omega

theorem updateList_mem (p : CandidatePatch) (id : Str) (l : List AtomCandidate) :
    ∀ x ∈ (updateList p id l).2, x ∈ l ∨ ∃ c ∈ l, x = applyPatch c p := by
  induction l with
  | nil => simp [updateList]
  | cons c cs ih =>
    intro x hx
    by_cases h : (c.id == id) = true
    · simp only [updateList, h, if_true, List.mem_cons] at hx
      rcases hx with hx | hx
      · exact Or.inr ⟨c, List.mem_cons_self c cs, hx⟩
      · exact Or.inl (List.mem_cons_of_mem c hx)
    · simp only [updateList, h, if_false] at hx
      cases hx with
      | head => exact Or.inl (List.mem_cons_self c cs)
      | tail _ hx =>
        rcases ih x hx with h' | ⟨d, hd, hx'⟩
        · exact Or.inl (List.mem_cons_of_mem c h')
        · exact Or.inr ⟨d, List.mem_cons_of_mem c hd, hx'⟩

theorem removeList_mem (id : Str) (l : List AtomCandidate) :
    ∀ x ∈ (removeList id l).2, x ∈ l := by
  induction l with
  | nil => simp [removeList]
  | cons c cs ih =>
    intro x hx
    by_cases h : (c.id == id) = true
    · simp only [removeList, h, if_true] at hx
      exact List.mem_cons_of_mem c hx
    · simp only [removeList, h, if_false] at hx
      cases hx with
      | head => exact List.mem_cons_self c cs
      | tail _ hx => exact List.mem_cons_of_mem c (ih x hx)

theorem stepOp_titlesOK (s : ServiceState) (op : StoreOp)
    (hs : stateTitlesOK s = true) (hop : opTitleOK op = true) :
    stateTitlesOK (stepOp s op) = true := by
  obtain ⟨cs⟩ := s
  cases cs with
  | none => cases op with
    | add concept now rand => exact hs
    | upd id p => exact hs
    | rem id => exact hs
  | some sess =>
    simp only [stateTitlesOK, List.all_eq_true, decide_eq_true_eq] at hs
    cases op with
    | add concept now rand =>
      simp only [stepOp, addCandidate, stateTitlesOK, List.all_eq_true, decide_eq_true_eq]
      intro c hc
      rcases List.mem_append.1 hc with h | h
      · exact hs c h
      · rcases List.mem_singleton.1 h with rfl
        exact suggestTitle_length_le concept
    | upd id p =>
      simp only [stepOp, updateCandidate, stateTitlesOK, List.all_eq_true, decide_eq_true_eq]
      intro c hc
      rcases updateList_mem p id sess.candidates c hc with h | ⟨d, hd, rfl⟩
      · exact hs c h
      · show (p.suggestedTitle.getD d.suggestedTitle).length ≤ 80
        cases hp : p.suggestedTitle with
        | none => simpa using hs d hd
        | some t =>
          simp only [Option.getD_some]
          simpa [opTitleOK, patchTitleOK, hp] using hop
    | rem id =>
      simp only [stepOp, removeCandidate, stateTitlesOK, List.all_eq_true, decide_eq_true_eq]
      intro c hc
      exact hs c (removeList_mem id sess.candidates c hc)

/-- C4 (amended): starting from a state whose stored titles all respect the
80-character bound, any sequence of `addCandidate` / `updateCandidate` /
`removeCandidate` calls keeps every stored `suggestedTitle` at most 80
characters long, *provided* no update patch supplies a `suggestedTitle`
longer than 80 characters; `addCandidate`'s own derivation always respects
the bound. -/
theorem c4_title_invariant (s : ServiceState) (ops : List StoreOp)
    (hs : stateTitlesOK s = true) (hops : ops.all opTitleOK = true) :
    stateTitlesOK (runOps s ops) = true := by
  induction ops generalizing s with
  | nil => exact hs
  | cons op rest ih =>
    rw [List.all_cons, Bool.and_eq_true] at hops
    exact ih (stepOp s op) (stepOp_titlesOK s op hs hops.1) hops.2

/-- An 81-character title. -/
def overlongTitle : Str := List.replicate 81 'a'

/-- Add a candidate, then patch its `suggestedTitle` to 81 characters. -/
def overlongOps : List StoreOp :=
  [.add "x".toList 0 "r".toList,
   .upd (generateId 0 "r".toList) { suggestedTitle := some overlongTitle }]

/-- C4 counterexample: with arbitrary arguments allowed, a two-call sequence —
`addCandidate` then `updateCandidate` supplying an 81-character
`suggestedTitle` — reaches a session state violating the 80-character title
invariant, because `updateCandidate` merges patches without re-deriving or
re-truncating the title. -/
theorem c4_title_counterexample :
    stateTitlesOK (runOps sampleState overlongOps) = false := by decide

/-- A sequence whose update patch does not supply a `suggestedTitle`. -/
def benignOps : List StoreOp :=
  [.add "a concept worth keeping".toList 0 "r1".toList,
   .upd (generateId 0 "r1".toList) { explanation := some "an explanation".toList },
   .rem (generateId 0 "r1".toList)]

/-- C4 witness: the amended invariant on a concrete add/update/remove run. -/
theorem c4_title_invariant_witness :
    stateTitlesOK (runOps sampleState benignOps) = true :=
  c4_title_invariant sampleState benignOps (by decide) (by decide)

/-! ## C5: `addCandidate` -/

/-- The candidate record `addCandidate` constructs. -/
def newCandidate (concept : Str) (now : Nat) (rand : Str) : AtomCandidate :=
  { id := generateId now rand, concept := concept, explanation := [],
    evidence := [], suggestedTitle := suggestTitle concept, tags := [],
    relatedAtoms := [], critique := [], approved := false }

/-- C5 counterexample: the claim derives `suggestedTitle` from the concept
itself, but the code first trims the concept.  On the concept `" banana"`
`addCandidate` returns the title `"Banana"`, whereas capitalising the first
character of the untrimmed concept (a space) leaves `" banana"` unchanged. -/
theorem c5_addCandidate_counterexample :
    (addCandidate sampleState " banana".toList 0 "r0".toList).toOption.map
        (fun r => r.1.suggestedTitle) = some "Banana".toList ∧
    specClaimTitle " banana".toList = " banana".toList ∧
    "Banana".toList ≠ " banana".toList := by decide

/-- C5 (amended): with an active session, `addCandidate(concept)` appends
exactly one candidate at the end of the list and returns it; its
`suggestedTitle` is the *whitespace-trimmed* concept with the first
character capitalised, truncated to exactly 80 characters ending in the
`"..."` marker when longer than 80; its other fields are empty strings,
empty lists and `approved = false`; and its id is the generated
`atom-<timestamp>-<random>` string, which is distinct from every stored id
whenever that generated string is not already stored (the code does not
itself check for collisions). -/
theorem c5_addCandidate (s : ServiceState) (sess : AtomisationSession)
    (concept : Str) (now : Nat) (rand : Str)
    (hs : s.currentSession = some sess) :
    addCandidate s concept now rand =
      .ok (newCandidate concept now rand,
           { currentSession := some
              { sess with candidates := sess.candidates ++ [newCandidate concept now rand] } }) ∧
    (newCandidate concept now rand).suggestedTitle =
      (if 80 < (jsCapitalise (jsTrim concept)).length
       then (jsCapitalise (jsTrim concept)).take 77 ++ "...".toList
       else jsCapitalise (jsTrim concept)) ∧
    (newCandidate concept now rand).suggestedTitle.length ≤ 80 ∧
    (80 < (jsCapitalise (jsTrim concept)).length →
      (newCandidate concept now rand).suggestedTitle.length = 80 ∧
      "...".toList <:+ (newCandidate concept now rand).suggestedTitle) ∧
    (newCandidate concept now rand).id = generateId now rand ∧
    (generateId now rand ∉ sess.candidates.map (fun c => c.id) →
      (newCandidate concept now rand).id ∉ sess.candidates.map (fun c => c.id)) ∧
    (newCandidate concept now rand).concept = concept ∧
    (newCandidate concept now rand).explanation = [] ∧
    (newCandidate concept now rand).evidence = [] ∧
    (newCandidate concept now rand).critique = [] ∧
    (newCandidate concept now rand).tags = [] ∧
    (newCandidate concept now rand).relatedAtoms = [] ∧
    (newCandidate concept now rand).approved = false := by
  refine ⟨?_, rfl, suggestTitle_length_le concept, ?_, rfl, fun h => h, rfl, rfl, rfl, rfl,
    rfl, rfl, rfl⟩
  · simp only [addCandidate, hs]
    rfl
  · intro hlong
    constructor
    · show (suggestTitle concept).length = 80
      show (if 80 < (jsCapitalise (jsTrim concept)).length
            then (jsCapitalise (jsTrim concept)).take 77 ++ "...".toList
            else jsCapitalise (jsTrim concept)).length = 80
      rw [if_pos hlong, List.length_append, List.length_take]
      have h3 : ("...".toList).length = 3 := rfl
      omega
    · show "...".toList <:+ suggestTitle concept
      show "...".toList <:+
        (if 80 < (jsCapitalise (jsTrim concept)).length
         then (jsCapitalise (jsTrim concept)).take 77 ++ "...".toList
         else jsCapitalise (jsTrim concept))
      rw [if_pos hlong]
      exact ⟨(jsCapitalise (jsTrim concept)).take 77, rfl⟩

/-- C5 witness: the amended theorem applied to a 100-character concept on a
session already holding one candidate. -/
theorem c5_addCandidate_witness :
    (addCandidate twoCandState (List.replicate 100 'b') 5 "xyz".toList =
      .ok (newCandidate (List.replicate 100 'b') 5 "xyz".toList,
           { currentSession := some
              { sampleSession with candidates :=
                  [candA, candB] ++ [newCandidate (List.replicate 100 'b') 5 "xyz".toList] } })) ∧
    (newCandidate (List.replicate 100 'b') 5 "xyz".toList).suggestedTitle.length = 80 ∧
    "...".toList <:+ (newCandidate (List.replicate 100 'b') 5 "xyz".toList).suggestedTitle ∧
    (newCandidate (List.replicate 100 'b') 5 "xyz".toList).id ∉
      [candA, candB].map (fun c => c.id) := by
  have h := c5_addCandidate twoCandState { sampleSession with candidates := [candA, candB] }
    (List.replicate 100 'b') 5 "xyz".toList rfl
  have hlong : 80 < (jsCapitalise (jsTrim (List.replicate 100 'b'))).length := by decide
  exact ⟨h.1, (h.2.2.2.1 hlong).1, (h.2.2.2.1 hlong).2, h.2.2.2.2.2.1 (by decide)⟩

/-! ## C6: `createAtoms` -/

theorem createAtomsRun_ok (ora : AtomCandidate → Except StorageErr (Option TFile))
    (fOf : AtomCandidate → TFile) (l : List AtomCandidate)
    (h : ∀ c ∈ l, ora c = .ok (some (fOf c))) :
    createAtomsRun ora l = (l.map fOf, none) := by
  induction l with
  | nil => rfl
  | cons c cs ih =>
    have hc := h c (List.mem_cons_self c cs)
    simp only [createAtomsRun, hc, ih fun x hx => h x (List.mem_cons_of_mem c hx), List.map_cons]

theorem createAtomsRun_err (ora : AtomCandidate → Except StorageErr (Option TFile))
    (fOf : AtomCandidate → TFile) (pre : List AtomCandidate) (x : AtomCandidate)
    (post : List AtomCandidate) (e : StorageErr)
    (h : ∀ c ∈ pre, ora c = .ok (some (fOf c))) (hx : ora x = .error e) :
    createAtomsRun ora (pre ++ x :: post) = (pre.map fOf, some e) := by
  induction pre with
  | nil => simp only [List.nil_append, createAtomsRun, hx, List.map_nil]
  | cons c cs ih =>
    have hc := h c (List.mem_cons_self c cs)
    simp only [List.cons_append, createAtomsRun, hc, List.append_eq,
      ih fun y hy => h y (List.mem_cons_of_mem c hy), List.map_cons]

/-- C6: with an active session, `createAtoms` processes exactly the approved
candidates, sequentially in list order.  If every file creation succeeds it
appends their files to the vault in order, marks the session completed and
returns the created-file list; if the creation for some approved candidate
throws, the error propagates (wrapped as a storage error), the service state
is left exactly as it was (in particular `completed` stays false if it was),
and the files created for the earlier approved candidates remain in the
vault. -/
theorem c6_createAtoms (s : ServiceState) (sess : AtomisationSession)
    (ora : AtomCandidate → Except StorageErr (Option TFile))
    (vault : List TFile) (fOf : AtomCandidate → TFile)
    (hs : s.currentSession = some sess) :
    ((∀ c ∈ sess.candidates.filter (fun c => c.approved), ora c = .ok (some (fOf c))) →
      createAtoms ora vault s =
        (vault ++ (sess.candidates.filter (fun c => c.approved)).map fOf,
         { currentSession := some { sess with completed := true } },
         .ok ((sess.candidates.filter (fun c => c.approved)).map fOf))) ∧
    (∀ pre x post e, sess.candidates.filter (fun c => c.approved) = pre ++ x :: post →
      (∀ c ∈ pre, ora c = .ok (some (fOf c))) → ora x = .error e →
      createAtoms ora vault s = (vault ++ pre.map fOf, s, .error (.storage e))) := by
  constructor
  · intro h
    simp only [createAtoms, hs, createAtomsRun_ok ora fOf _ h]
  · intro pre x post e hsplit h hx
    simp only [createAtoms, hs, hsplit, createAtomsRun_err ora fOf pre x post e h hx]

/-- An approved candidate. -/
def candOkA : AtomCandidate := { candA with approved := true }

/-- A second approved candidate. -/
def candOkB : AtomCandidate := { candB with approved := true }

/-- An unapproved candidate. -/
def candSkip : AtomCandidate :=
  { id := "c3".toList, concept := "gamma".toList, explanation := [], evidence := [],
    suggestedTitle := "Gamma".toList, tags := [], relatedAtoms := [], critique := [],
    approved := false }

/-- A session holding two approved candidates around an unapproved one. -/
def mixedSession : AtomisationSession :=
  { sampleSession with candidates := [candOkA, candSkip, candOkB] }

/-- The state holding `mixedSession`. -/
def mixedState : ServiceState := { currentSession := some mixedSession }

/-- An oracle that creates a file named after the candidate's title. -/
def okOracle (c : AtomCandidate) : Except StorageErr (Option TFile) :=
  .ok (some (c.suggestedTitle ++ ".md".toList))

/-- The file each candidate materialises to under `okOracle`. -/
def fileOfTitle (c : AtomCandidate) : TFile := c.suggestedTitle ++ ".md".toList

/-- C6 witness: the success branch on a session with two approved candidates
and one unapproved one — exactly the approved files are created, in order,
and the session is marked completed. -/
theorem c6_createAtoms_witness :
    createAtoms okOracle [] mixedState =
      ([] ++ (mixedSession.candidates.filter (fun c => c.approved)).map fileOfTitle,
       { currentSession := some { mixedSession with completed := true } },
       .ok ((mixedSession.candidates.filter (fun c => c.approved)).map fileOfTitle)) :=
  (c6_createAtoms mixedState mixedSession okOracle [] fileOfTitle rfl).1 (by
    have hfilter : mixedSession.candidates.filter (fun c => c.approved) = [candOkA, candOkB] := by
      decide
    intro c hc
    rw [hfilter] at hc
    fin_cases hc <;> rfl)

/-! ## C10: the derived title is trimmed and capitalised -/

/-- The first non-whitespace character of a string. -/
def firstNonWs (s : Str) : Option Char := (s.dropWhile Char.isWhitespace).head?

theorem toUpper_not_ws (c : Char) (h : c.isWhitespace = false) :
    c.toUpper.isWhitespace = false := by
  show (if c.toNat ≥ 97 ∧ c.toNat ≤ 122 then Char.ofNat (c.toNat - 32) else c).isWhitespace
    = false
  split
  case isTrue hn =>
    have hv : Nat.isValidChar (c.toNat - 32) := Or.inl (by omega)
    have hx : (Char.ofNat (c.toNat - 32)).toNat = c.toNat - 32 := by
      rw [Char.ofNat, dif_pos hv]
      rfl
    have hrange : 65 ≤ (Char.ofNat (c.toNat - 32)).toNat ∧
        (Char.ofNat (c.toNat - 32)).toNat ≤ 90 := by
      rw [hx]; omega
    set x := Char.ofNat (c.toNat - 32) with hdef
    have h1 : x ≠ ' ' := by intro he; rw [he] at hrange; revert hrange; decide
    have h2 : x ≠ '\t' := by intro he; rw [he] at hrange; revert hrange; decide
    have h3 : x ≠ '\r' := by intro he; rw [he] at hrange; revert hrange; decide
    have h4 : x ≠ '\n' := by intro he; rw [he] at hrange; revert hrange; decide
    simp only [Char.isWhitespace, decide_eq_false h1, decide_eq_false h2, decide_eq_false h3,
      decide_eq_false h4, Bool.or_self]
  case isFalse => exact h

theorem head?_dropWhile_false {α : Type} (p : α → Bool) (l : List α) (c : α)
    (h : (l.dropWhile p).head? = some c) : p c = false := by
  have hm := List.head?_dropWhile_not p l
  rw [h] at hm
  exact hm

theorem dropTrailingWs_head? (t : Str) (c : Char) (hc : t.head? = some c)
    (hw : c.isWhitespace = false) : (dropTrailingWs t).head? = some c := by
  unfold dropTrailingWs
  rw [List.head?_reverse]
  obtain ⟨pre, hpre⟩ := List.dropWhile_suffix (l := t.reverse) Char.isWhitespace
  have hcmem : c ∈ t := by
    cases t with
    | nil => cases hc
    | cons a t' =>
      simp only [List.head?_cons, Option.some.injEq] at hc
      rw [← hc]
      exact List.mem_cons_self a t'
  have hne : t.reverse.dropWhile Char.isWhitespace ≠ [] := by
    intro h0
    rw [List.dropWhile_eq_nil_iff] at h0
    have := h0 c (List.mem_reverse.mpr hcmem)
    rw [hw] at this
    exact Bool.false_ne_true this
  have hlast : (t.reverse).getLast? = some c := by
    rw [List.getLast?_reverse]
    exact hc
  rw [← hpre, List.getLast?_append_of_ne_nil pre hne] at hlast
  exact hlast

theorem dropTrailingWs_getLast_not_ws (t : Str) (c : Char)
    (h : (dropTrailingWs t).getLast? = some c) : c.isWhitespace = false := by
  unfold dropTrailingWs at h
  rw [List.getLast?_reverse] at h
  exact head?_dropWhile_false _ _ _ h

theorem jsTrim_head? (s : Str) (c : Char) (h : firstNonWs s = some c) :
    (jsTrim s).head? = some c := by
  have hw : c.isWhitespace = false := head?_dropWhile_false _ _ _ h
  exact dropTrailingWs_head? _ c h hw

theorem jsTrim_head_not_ws (s : Str) (a : Char) (h : (jsTrim s).head? = some a) :
    a.isWhitespace = false := by
  unfold jsTrim dropTrailingWs at h
  rw [List.head?_reverse] at h
  obtain ⟨pre, hpre⟩ :=
    List.dropWhile_suffix (l := (s.dropWhile Char.isWhitespace).reverse) Char.isWhitespace
  have hne : (s.dropWhile Char.isWhitespace).reverse.dropWhile Char.isWhitespace ≠ [] := by
    intro h0
    rw [h0] at h
    cases h
  have hlast :
      ((s.dropWhile Char.isWhitespace).reverse).getLast? = some a := by
    rw [← hpre, List.getLast?_append_of_ne_nil pre hne]
    exact h
  rw [List.getLast?_reverse] at hlast
  exact head?_dropWhile_false _ _ _ hlast

theorem jsTrim_last_not_ws (s : Str) (c : Char) (h : (jsTrim s).getLast? = some c) :
    c.isWhitespace = false :=
  dropTrailingWs_getLast_not_ws _ _ h

theorem suggestTitle_head? (concept : Str) (c : Char) (h : firstNonWs concept = some c) :
    (suggestTitle concept).head? = some c.toUpper := by
  have hh := jsTrim_head? concept c h
  obtain ⟨rest, hrest⟩ : ∃ rest, jsTrim concept = c :: rest := by
    cases ht : jsTrim concept with
    | nil => rw [ht] at hh; cases hh
    | cons a r =>
      rw [ht] at hh
      simp only [List.head?_cons, Option.some.injEq] at hh
      exact ⟨r, by rw [hh]⟩
  show (if 80 < (jsCapitalise (jsTrim concept)).length
        then (jsCapitalise (jsTrim concept)).take 77 ++ "...".toList
        else jsCapitalise (jsTrim concept)).head? = some c.toUpper
  rw [hrest]
  split
  · rfl
  · rfl

theorem suggestTitle_head_not_ws (concept : Str) (c : Char)
    (h : (suggestTitle concept).head? = some c) : c.isWhitespace = false := by
  revert h
  show ((if 80 < (jsCapitalise (jsTrim concept)).length
         then (jsCapitalise (jsTrim concept)).take 77 ++ "...".toList
         else jsCapitalise (jsTrim concept)).head? = some c) → c.isWhitespace = false
  split
  case isTrue hb =>
    intro h
    cases ht : jsTrim concept with
    | nil => rw [ht] at hb; cases hb
    | cons a rest =>
      rw [ht] at h
      have hc : some a.toUpper = some c := h
      have hc' : c = a.toUpper := (Option.some.injEq _ _ ▸ hc).symm
      rw [hc']
      exact toUpper_not_ws a (jsTrim_head_not_ws concept a (by rw [ht]; rfl))
  case isFalse hb =>
    intro h
    cases ht : jsTrim concept with
    | nil => rw [ht] at h; cases h
    | cons a rest =>
      rw [ht] at h
      have hc : some a.toUpper = some c := h
      have hc' : c = a.toUpper := (Option.some.injEq _ _ ▸ hc).symm
      rw [hc']
      exact toUpper_not_ws a (jsTrim_head_not_ws concept a (by rw [ht]; rfl))

theorem suggestTitle_last_not_ws (concept : Str) (c : Char)
    (h : (suggestTitle concept).getLast? = some c) : c.isWhitespace = false := by
  revert h
  show ((if 80 < (jsCapitalise (jsTrim concept)).length
         then (jsCapitalise (jsTrim concept)).take 77 ++ "...".toList
         else jsCapitalise (jsTrim concept)).getLast? = some c) → c.isWhitespace = false
  split
  · intro h
    rw [List.getLast?_append_of_ne_nil _ (by decide : ("...".toList : Str) ≠ [])] at h
    have hdot : some '.' = some c := h
    have hc : c = '.' := (Option.some.injEq _ _ ▸ hdot).symm
    rw [hc]
    decide
  · intro h
    cases ht : jsTrim concept with
    | nil => rw [ht] at h; cases h
    | cons a rest =>
      rw [ht] at h
      cases hr : rest with
      | nil =>
        rw [hr] at h
        have hc : some a.toUpper = some c := h
        have hc' : c = a.toUpper := (Option.some.injEq _ _ ▸ hc).symm
        rw [hc']
        exact toUpper_not_ws a (jsTrim_head_not_ws concept a (by rw [ht]; rfl))
      | cons b rest' =>
        rw [hr] at h
        have h2 : (jsTrim concept).getLast? = some c := by
          rw [ht, hr, List.getLast?_cons_cons]
          exact h
        exact jsTrim_last_not_ws concept c h2

/-- C10: `addCandidate` derives the title from the whitespace-trimmed
concept: the returned candidate's `suggestedTitle` never starts or ends
with whitespace, it begins with the upper-cased first non-whitespace
character of the concept whenever one exists, and the candidate's `concept`
field stores the original, untrimmed string. -/
theorem c10_title_from_trimmed_concept (concept : Str) :
    (∀ c, (suggestTitle concept).head? = some c → c.isWhitespace = false) ∧
    (∀ c, (suggestTitle concept).getLast? = some c → c.isWhitespace = false) ∧
    (∀ c, firstNonWs concept = some c → (suggestTitle concept).head? = some c.toUpper) ∧
    (∀ s sess now rand, s.currentSession = some sess →
      addCandidate s concept now rand =
        .ok (newCandidate concept now rand,
          { currentSession := some
              { sess with candidates := sess.candidates ++ [newCandidate concept now rand] } })) ∧
    (∀ now rand, (newCandidate concept now rand).concept = concept ∧
      (newCandidate concept now rand).suggestedTitle = suggestTitle concept) := by
  refine ⟨suggestTitle_head_not_ws concept, suggestTitle_last_not_ws concept,
    fun c h => suggestTitle_head? concept c h, fun s sess now rand hs => ?_,
    fun _ _ => ⟨rfl, rfl⟩⟩
  simp only [addCandidate, hs]
  rfl

/-- C10 witness: the theorem applied to the concept `" banana"`. -/
theorem c10_title_from_trimmed_concept_witness :
    'B'.isWhitespace = false ∧
    'a'.isWhitespace = false ∧
    (suggestTitle " banana".toList).head? = some ('b'.toUpper) ∧
    addCandidate sampleState " banana".toList 3 "rr".toList =
      .ok (newCandidate " banana".toList 3 "rr".toList,
        { currentSession := some
            { sampleSession with candidates :=
                sampleSession.candidates ++ [newCandidate " banana".toList 3 "rr".toList] } }) ∧
    (newCandidate " banana".toList 3 "rr".toList).concept = " banana".toList := by
  have h := c10_title_from_trimmed_concept " banana".toList
  exact ⟨h.1 'B' (by decide), h.2.1 'a' (by decide), h.2.2.1 'b' (by decide),
    h.2.2.2.1 sampleState sampleSession 3 "rr".toList rfl,
    (h.2.2.2.2 3 "rr".toList).1⟩

end Kastenator
